import Mathlib

/-!
Shallow embedding of `src/birdweather_report.py`: the paginated fetcher
`fetch_bird_detections`, the per-species aggregation loop of
`generate_report`, the ranking step, and the per-hour display cells.

Modelling conventions:
* Python floats (confidence values) are modelled as exact rationals `Rat`;
  the program only compares them.
* A timestamp is modelled by the naive wall-clock instant written in the
  record, in seconds, so that
  `datetime.fromisoformat(ts).replace(tzinfo=None).hour` becomes
  `t / 3600 % 24`.
* The upstream API is modelled by the list of page responses it serves, in
  order; the fetch loop consumes one per request.  The model also records
  the `cursor` parameter carried by each issued request.
* The `defaultdict` of per-species accumulators is an association list in
  insertion (first-occurrence) order, accessed through
  `lookupStat`/`insertStat`; the inner `defaultdict(int)` of hour counts is
  a total function `Nat → Nat` defaulting to `0`.
* Dictionary key accesses, which raise `KeyError` on a missing key, are
  made explicit in a second, `Except`-valued rendering of the loop body
  (`foldRaw`), faithful to the order the Python source performs them.
-/

/-- A soundscape attachment of a detection: `{url, startTime, endTime}`. -/
structure Soundscape where
  url : String
  startTime : Rat
  endTime : Rat
  deriving DecidableEq

/-- One upstream detection record, holding exactly the fields that
`fetch_bird_detections` and `generate_report` read: `id`, `timestamp`,
`species.commonName`, `species.scientificName`, `species.imageUrl`,
`confidence`, `soundscape`.  `imageUrl` and `soundscape` are optional
(JSON `null`). -/
structure DetectionRecord where
  id : Nat
  timestamp : Nat
  commonName : String
  scientificName : String
  confidence : Rat
  imageUrl : Option String
  soundscape : Option Soundscape

/-- Hour-of-day bucket of a naive timestamp in seconds: models
`datetime.fromisoformat(detection['timestamp']).replace(tzinfo=None).hour`
(line 66). -/
def hourOf (t : Nat) : Nat := t / 3600 % 24

/-- The per-species accumulator produced by the `defaultdict` factory in
`generate_report` (lines 55-62). -/
structure SpeciesStat where
  count : Nat
  max_confidence : Rat
  hour_counts : Nat → Nat
  scientific_name : Option String
  image_url : Option String
  best_soundscape : Option Soundscape

/-- The `defaultdict` default entry: `count = 0`, `max_confidence = 0`,
empty `hour_counts`, `scientific_name = None`, `image_url = None`,
`best_soundscape = None` (lines 55-62). -/
def initStat : SpeciesStat :=
  { count := 0
    max_confidence := 0
    hour_counts := fun _ => 0
    scientific_name := none
    image_url := none
    best_soundscape := none }

/-- The body of the aggregation loop (lines 64-77) applied to the current
stat of the record's species: increment `count`, unconditionally overwrite
`scientific_name` and `image_url`, update `max_confidence` and
`best_soundscape` when `confidence` strictly exceeds the current maximum,
and bump the record's hour bucket. -/
def updateStat (d : DetectionRecord) (s : SpeciesStat) : SpeciesStat :=
  let hour := hourOf d.timestamp
  let s1 : SpeciesStat :=
    { s with
      count := s.count + 1
      scientific_name := some d.scientificName
      image_url := d.imageUrl }
  let s2 : SpeciesStat :=
    if s1.max_confidence < d.confidence then
      { s1 with max_confidence := d.confidence, best_soundscape := d.soundscape }
    else s1
  { s2 with
    hour_counts := fun h => if h = hour then s2.hour_counts h + 1 else s2.hour_counts h }

/-- The `species_stats` mapping: an association list from common name to
stat, in insertion (first-occurrence) order, exactly as a Python dict
iterates. -/
abbrev AggState := List (String × SpeciesStat)

/-- Key lookup in the aggregate mapping. -/
def lookupStat : AggState → String → Option SpeciesStat
  | [], _ => none
  | (k, v) :: rest, name => if k = name then some v else lookupStat rest name

/-- Store a stat under a key: replaces the existing entry in place, or
appends a new entry at the end — Python dicts preserve insertion order, and
`defaultdict` creates the entry on first access. -/
def insertStat : AggState → String → SpeciesStat → AggState
  | [], name, s => [(name, s)]
  | (k, v) :: rest, name, s =>
    if k = name then (k, s) :: rest else (k, v) :: insertStat rest name s

/-- One iteration of `for detection in detections` (lines 64-77). -/
def foldDetection (st : AggState) (d : DetectionRecord) : AggState :=
  insertStat st d.commonName
    (updateStat d ((lookupStat st d.commonName).getD initStat))

/-- The whole aggregation pass of `generate_report`, from the empty
mapping. -/
def aggregate (ds : List DetectionRecord) : AggState :=
  ds.foldl foldDetection []

/-- Folding a run of records into a single species' accumulator; the
per-species trace of `aggregate`. -/
def foldSpecies (l : List DetectionRecord) (s : SpeciesStat) : SpeciesStat :=
  l.foldl (fun s d => updateStat d s) s

/-- `{'name': k, **v}` (line 80): a stat paired with its species name. -/
structure NamedStat where
  name : String
  count : Nat
  max_confidence : Rat
  hour_counts : Nat → Nat
  scientific_name : Option String
  image_url : Option String
  best_soundscape : Option Soundscape

/-- Attach the key to the stat, as the dict comprehension on line 80 does. -/
def toNamed (kv : String × SpeciesStat) : NamedStat :=
  { name := kv.1
    count := kv.2.count
    max_confidence := kv.2.max_confidence
    hour_counts := kv.2.hour_counts
    scientific_name := kv.2.scientific_name
    image_url := kv.2.image_url
    best_soundscape := kv.2.best_soundscape }

/-- `sorted([...], key=lambda x: x['count'], reverse=True)` (lines 79-83).
Python's `sorted` is a stable sort and `reverse=True` keeps equal-key
elements in their original relative order, which is exactly
`List.mergeSort` with `le x y := y.count ≤ x.count`. -/
def sorted_species (st : AggState) : List NamedStat :=
  (st.map toNamed).mergeSort fun x y => Nat.ble y.count x.count

/-- One cell of the hourly display grid (lines 87-91). -/
structure HourCell where
  hour : Nat
  count : Nat
  intensity : Nat
  deriving DecidableEq

/-- The display row built for each species (lines 85-93): one cell per
`hour in range(24)`, carrying the raw count and
`min(count * 25, 255)` as intensity. -/
def hoursRow (s : NamedStat) : List HourCell :=
  (List.range 24).map fun hour =>
    { hour := hour
      count := s.hour_counts hour
      intensity := min (s.hour_counts hour * 25) 255 }

/-- One JSON page response from the upstream API: `success` flag and the
`detections` array. -/
structure PageResponse where
  success : Bool
  detections : List DetectionRecord

/-- The pagination loop of `fetch_bird_detections` (lines 34-51).  `pages`
is the sequence of responses the upstream serves to the successive
requests; the result pairs the `cursor` parameter of each issued request
(in order, `none` when absent) with the concatenated detections.  The
model covers runs in which the loop breaks within the supplied responses
— the real loop always receives a response to every request, so a run that
exhausts `pages` without breaking is outside the modelled scenarios. -/
def fetchGo (limit : Nat) :
    List PageResponse → Option Nat → List (Option Nat) × List DetectionRecord
  | [], _ => ([], [])
  | page :: rest, cursor =>
    if !page.success || page.detections.isEmpty then ([cursor], [])
    else
      let last_id := ((page.detections.getLast?).map (·.id)).getD 0
      if page.detections.length < limit then ([cursor], page.detections)
      else
        let next := fetchGo limit rest (some last_id)
        (cursor :: next.1, page.detections ++ next.2)

/-- `fetch_bird_detections`: page size (`limit`) 100, first request carries
no cursor. -/
def fetch_bird_detections (pages : List PageResponse) :
    List (Option Nat) × List DetectionRecord :=
  fetchGo 100 pages none

/-- Append a key if not already present: the effect of a `defaultdict`
get-or-create on the dict's key order. -/
def insertNew (ks : List String) (x : String) : List String :=
  if x ∈ ks then ks else ks ++ [x]

/-- The species names of a record stream in first-occurrence order. -/
def firstOccurrences (l : List String) : List String := l.foldl insertNew []

/-- The `species` sub-dictionary of a raw detection; `none` in an outer
`Option` models a missing key. -/
structure RawSpecies where
  commonName : Option String
  scientificName : Option String
  imageUrl : Option (Option String)

/-- A raw detection as a JSON dictionary: each field's outer `Option` is
key presence (`none` = missing key, so accessing it raises `KeyError`);
for `imageUrl` and `soundscape` the inner `Option` is JSON `null`. -/
structure RawDetection where
  timestamp : Option Nat
  species : Option RawSpecies
  confidence : Option Rat
  soundscape : Option (Option Soundscape)

/-- The Python exception the aggregation loop can raise. -/
inductive PyError where
  | keyError
  deriving DecidableEq

/-- `d[k]`: the value when the key is present, `KeyError` otherwise. -/
def getKey {α : Type} : Option α → Except PyError α
  | none => .error .keyError
  | some a => .ok a

/-- The aggregation loop body with every dictionary access explicit, in
the order the Python source performs them (lines 64-77): `species`,
`species['commonName']`, `timestamp`, then entry creation and `count`,
then `species['scientificName']`, `species['imageUrl']`, `confidence`,
`soundscape` (only inside the strict-excess branch), and the hour bucket. -/
def foldRaw (st : AggState) (d : RawDetection) : Except PyError AggState := do
  let sp ← getKey d.species
  let common_name ← getKey sp.commonName
  let ts ← getKey d.timestamp
  let hour := hourOf ts
  let s0 := (lookupStat st common_name).getD initStat
  let s1 : SpeciesStat := { s0 with count := s0.count + 1 }
  let sci ← getKey sp.scientificName
  let img ← getKey sp.imageUrl
  let s2 : SpeciesStat := { s1 with scientific_name := some sci, image_url := img }
  let confidence ← getKey d.confidence
  let s3 ←
    if s2.max_confidence < confidence then do
      let snd ← getKey d.soundscape
      pure { s2 with max_confidence := confidence, best_soundscape := snd }
    else pure s2
  let s4 : SpeciesStat :=
    { s3 with
      hour_counts := fun h => if h = hour then s3.hour_counts h + 1 else s3.hour_counts h }
  pure (insertStat st common_name s4)

/-- The whole loop over raw records: the first `KeyError` aborts
`generate_report` — no aggregate is produced. -/
def aggregateRaw (ds : List RawDetection) : Except PyError AggState :=
  ds.foldlM foldRaw []

/-- Injection of a well-formed record into the raw-dictionary shape. -/
def toRaw (d : DetectionRecord) : RawDetection :=
  { timestamp := some d.timestamp
    species := some
      { commonName := some d.commonName
        scientificName := some d.scientificName
        imageUrl := some d.imageUrl }
    confidence := some d.confidence
    soundscape := some d.soundscape }

/-! ### Structural lemmas about the aggregate mapping -/

lemma lookupStat_insertStat (st : AggState) (k name : String) (s : SpeciesStat) :
    lookupStat (insertStat st k s) name
      = if k = name then some s else lookupStat st name := by
  induction st with
  | nil => by_cases hn : k = name <;> simp [insertStat, lookupStat, hn]
  | cons kv rest ih =>
    obtain ⟨k', v⟩ := kv
    by_cases hk : k' = k
    · subst hk
      by_cases hn : k' = name <;> simp [insertStat, lookupStat, hn]
    · by_cases hn : k' = name
      · subst hn
        have hkn : ¬ k = k' := fun h => hk h.symm
        simp [insertStat, lookupStat, hk, hkn]
      · simp [insertStat, lookupStat, hk, hn, ih]

lemma lookupStat_foldDetection (st : AggState) (d : DetectionRecord) (name : String) :
    lookupStat (foldDetection st d) name
      = if d.commonName = name then
          some (updateStat d ((lookupStat st name).getD initStat))
        else lookupStat st name := by
  unfold foldDetection
  rw [lookupStat_insertStat]
  by_cases h : d.commonName = name
  · rw [if_pos h, if_pos h, h]
  · rw [if_neg h, if_neg h]

lemma mem_insertStat {st : AggState} {k : String} {s : SpeciesStat}
    {kv : String × SpeciesStat} (h : kv ∈ insertStat st k s) :
    kv ∈ st ∨ kv = (k, s) := by
  induction st with
  | nil =>
    simp only [insertStat, List.mem_singleton] at h
    exact Or.inr h
  | cons kv' rest ih =>
    obtain ⟨k', v⟩ := kv'
    simp only [insertStat] at h
    by_cases hk : k' = k
    · rw [if_pos hk] at h
      rcases List.mem_cons.mp h with h1 | h1
      · exact Or.inr (by rw [h1, hk])
      · exact Or.inl (List.mem_cons_of_mem _ h1)
    · rw [if_neg hk] at h
      rcases List.mem_cons.mp h with h1 | h1
      · exact Or.inl (List.mem_cons.mpr (Or.inl h1))
      · rcases ih h1 with h2 | h2
        · exact Or.inl (List.mem_cons_of_mem _ h2)
        · exact Or.inr h2

lemma lookupStat_mem {st : AggState} {name : String} {v : SpeciesStat}
    (h : lookupStat st name = some v) : (name, v) ∈ st := by
  induction st with
  | nil => simp [lookupStat] at h
  | cons kv rest ih =>
    obtain ⟨k, v'⟩ := kv
    simp only [lookupStat] at h
    split at h
    · next hk =>
      subst hk
      obtain rfl := Option.some.inj h
      exact List.mem_cons_self _ _
    · next hk => exact List.mem_cons_of_mem _ (ih h)

/-- Every accumulator in the aggregate satisfies any property that holds of
the fresh default entry and is preserved by the loop body. -/
lemma aggregate_inv (P : SpeciesStat → Prop) (h0 : P initStat)
    (hstep : ∀ (d : DetectionRecord) (s : SpeciesStat), P s → P (updateStat d s)) :
    ∀ (recs : List DetectionRecord) (st : AggState),
      (∀ kv ∈ st, P kv.2) → ∀ kv ∈ List.foldl foldDetection st recs, P kv.2 := by
  intro recs
  induction recs with
  | nil => intro st hst kv hkv; exact hst kv hkv
  | cons d recs ih =>
    intro st hst kv hkv
    refine ih (foldDetection st d) ?_ kv hkv
    intro kv' hkv'
    rcases mem_insertStat hkv' with h' | h'
    · exact hst kv' h'
    · subst h'
      refine hstep _ _ ?_
      cases hl : lookupStat st d.commonName with
      | none => simpa [hl] using h0
      | some v => simpa [hl] using hst (d.commonName, v) (lookupStat_mem hl)

/-! ### Field-level behaviour of the loop body -/

lemma updateStat_count (d : DetectionRecord) (s : SpeciesStat) :
    (updateStat d s).count = s.count + 1 := by
  by_cases h : s.max_confidence < d.confidence <;> simp [updateStat, h]

lemma updateStat_hour_counts (d : DetectionRecord) (s : SpeciesStat) :
    (updateStat d s).hour_counts
      = fun h => if h = hourOf d.timestamp then s.hour_counts h + 1
                 else s.hour_counts h := by
  funext h
  by_cases hc : s.max_confidence < d.confidence <;> simp [updateStat, hc]

lemma updateStat_scientific_name (d : DetectionRecord) (s : SpeciesStat) :
    (updateStat d s).scientific_name = some d.scientificName := by
  by_cases h : s.max_confidence < d.confidence <;> simp [updateStat, h]

lemma updateStat_image_url (d : DetectionRecord) (s : SpeciesStat) :
    (updateStat d s).image_url = d.imageUrl := by
  by_cases h : s.max_confidence < d.confidence <;> simp [updateStat, h]

lemma updateStat_max_confidence (d : DetectionRecord) (s : SpeciesStat) :
    (updateStat d s).max_confidence = max s.max_confidence d.confidence := by
  by_cases h : s.max_confidence < d.confidence
  · simp [updateStat, h, max_eq_right h.le]
  · simp [updateStat, h, max_eq_left (not_lt.mp h)]

lemma updateStat_best_of_lt {d : DetectionRecord} {s : SpeciesStat}
    (h : s.max_confidence < d.confidence) :
    (updateStat d s).best_soundscape = d.soundscape := by
  simp [updateStat, h]

lemma updateStat_best_of_le {d : DetectionRecord} {s : SpeciesStat}
    (h : d.confidence ≤ s.max_confidence) :
    (updateStat d s).best_soundscape = s.best_soundscape := by
  simp [updateStat, not_lt.mpr h]

lemma hourOf_lt (t : Nat) : hourOf t < 24 :=
  Nat.mod_lt _ (by norm_num)

lemma sum_hour_bump (f : Nat → Nat) (hr : Nat) (hhr : hr < 24) :
    (∑ x ∈ Finset.range 24, if x = hr then f x + 1 else f x)
      = (∑ x ∈ Finset.range 24, f x) + 1 := by
  have hmem : hr ∈ Finset.range 24 := Finset.mem_range.mpr hhr
  rw [Finset.sum_eq_sum_diff_singleton_add hmem
        (fun x => if x = hr then f x + 1 else f x),
      Finset.sum_eq_sum_diff_singleton_add hmem f]
  have hcong : ∀ x ∈ Finset.range 24 \ {hr},
      (if x = hr then f x + 1 else f x) = f x := by
    intro x hx
    rw [Finset.mem_sdiff, Finset.mem_singleton] at hx
    rw [if_neg hx.2]
  rw [Finset.sum_congr rfl hcong, if_pos rfl]
  ring

/-- C1: for every record stream and every species in the aggregate built by
folding any prefix of it (so in particular after every individual record is
folded), the sum of the 24 hourly bucket counts equals the `count` field;
and each application of the loop body increments the species `count` and
exactly the record's hour bucket by one, leaving every other bucket
unchanged. -/
theorem aggregate_hourCounts_sum_eq_count
    (recs : List DetectionRecord) (n : Nat) (kv : String × SpeciesStat)
    (hkv : kv ∈ aggregate (recs.take n))
    (d : DetectionRecord) (s : SpeciesStat) (h : Nat) (hne : h ≠ hourOf d.timestamp) :
    (∑ x ∈ Finset.range 24, kv.2.hour_counts x) = kv.2.count
    ∧ (updateStat d s).count = s.count + 1
    ∧ (updateStat d s).hour_counts (hourOf d.timestamp)
        = s.hour_counts (hourOf d.timestamp) + 1
    ∧ (updateStat d s).hour_counts h = s.hour_counts h := by
  refine ⟨?_, updateStat_count d s, ?_, ?_⟩
  · exact aggregate_inv
      (fun s => (∑ x ∈ Finset.range 24, s.hour_counts x) = s.count)
      (by simp [initStat])
      (fun d' s' hs' => by
        have hs2 : (∑ x ∈ Finset.range 24, s'.hour_counts x) = s'.count := hs'
        simp only [updateStat_count, updateStat_hour_counts]
        rw [sum_hour_bump _ _ (hourOf_lt d'.timestamp), hs2])
      (recs.take n) [] (by simp) kv hkv
  · simp only [updateStat_hour_counts]
    simp
  · simp only [updateStat_hour_counts]
    simp [hne]

theorem aggregate_hourCounts_sum_eq_count_witness :
    (∑ x ∈ Finset.range 24,
        (updateStat ⟨1, 0, "A", "Aa", 1/2, none, none⟩ initStat).hour_counts x)
      = (updateStat ⟨1, 0, "A", "Aa", 1/2, none, none⟩ initStat).count
    ∧ (updateStat ⟨1, 0, "A", "Aa", 1/2, none, none⟩ initStat).count
        = initStat.count + 1
    ∧ (updateStat ⟨1, 0, "A", "Aa", 1/2, none, none⟩ initStat).hour_counts (hourOf 0)
        = initStat.hour_counts (hourOf 0) + 1
    ∧ (updateStat ⟨1, 0, "A", "Aa", 1/2, none, none⟩ initStat).hour_counts 1
        = initStat.hour_counts 1 :=
  aggregate_hourCounts_sum_eq_count [⟨1, 0, "A", "Aa", 1/2, none, none⟩] 1
    ("A", updateStat ⟨1, 0, "A", "Aa", 1/2, none, none⟩ initStat)
    (by simp [aggregate, foldDetection, insertStat, lookupStat])
    ⟨1, 0, "A", "Aa", 1/2, none, none⟩ initStat 1 (by decide)

/-! ### Per-species decomposition of the aggregate -/

lemma lookupStat_foldl (recs : List DetectionRecord) (st : AggState) (name : String) :
    lookupStat (List.foldl foldDetection st recs) name
      = (recs.filter fun r => decide (r.commonName = name)).foldl
          (fun o d => some (updateStat d (o.getD initStat))) (lookupStat st name) := by
  induction recs generalizing st with
  | nil => simp
  | cons d recs ih =>
    rw [List.foldl_cons, ih]
    by_cases h : d.commonName = name
    · rw [List.filter_cons_of_pos (by simp [h]), List.foldl_cons,
        lookupStat_foldDetection, if_pos h]
    · rw [List.filter_cons_of_neg (by simp [h]), lookupStat_foldDetection, if_neg h]

lemma foldl_opt_some (l : List DetectionRecord) (s : SpeciesStat) :
    l.foldl (fun o d => some (updateStat d (o.getD initStat))) (some s)
      = some (foldSpecies l s) := by
  induction l generalizing s with
  | nil => rfl
  | cons d l ih =>
    rw [List.foldl_cons]
    simp only [Option.getD_some]
    rw [ih]
    rfl

lemma lookupStat_aggregate (recs : List DetectionRecord) (name : String) :
    lookupStat (aggregate recs) name
      = match recs.filter fun r => decide (r.commonName = name) with
        | [] => none
        | d :: l => some (foldSpecies l (updateStat d initStat)) := by
  unfold aggregate
  rw [lookupStat_foldl]
  cases hfil : recs.filter fun r => decide (r.commonName = name) with
  | nil => simp [lookupStat]
  | cons d l => simp [lookupStat, foldl_opt_some]

/-! ### Folded maxima -/

lemma le_foldl_max {α : Type} [LinearOrder α] (l : List α) (a : α) :
    a ≤ l.foldl max a := by
  induction l generalizing a with
  | nil => simp
  | cons b l ih => exact le_trans (le_max_left a b) (ih (max a b))

lemma mem_le_foldl_max {α : Type} [LinearOrder α] {l : List α} {c : α}
    (hc : c ∈ l) (a : α) : c ≤ l.foldl max a := by
  induction l generalizing a with
  | nil => cases hc
  | cons b l ih =>
    rw [List.foldl_cons]
    rcases List.mem_cons.mp hc with rfl | h
    · exact le_trans (le_max_right a c) (le_foldl_max l _)
    · exact ih h _

lemma foldl_max_le {α : Type} [LinearOrder α] {l : List α} {a b : α} (hab : a ≤ b)
    (hl : ∀ c ∈ l, c ≤ b) : l.foldl max a ≤ b := by
  induction l generalizing a with
  | nil => simpa
  | cons d l ih =>
    rw [List.foldl_cons]
    exact ih (max_le hab (hl d (List.mem_cons_self _ _)))
      fun c hc => hl c (List.mem_cons_of_mem _ hc)

lemma foldl_max_choice {α : Type} [LinearOrder α] (l : List α) (a : α) :
    l.foldl max a = a ∨ l.foldl max a ∈ l := by
  induction l generalizing a with
  | nil => exact Or.inl rfl
  | cons b l ih =>
    rw [List.foldl_cons]
    rcases ih (max a b) with h | h
    · rcases max_choice a b with h' | h'
      · exact Or.inl (h.trans h')
      · exact Or.inr (by rw [h, h']; exact List.mem_cons_self _ _)
    · exact Or.inr (List.mem_cons_of_mem _ h)

lemma foldSpecies_max (l : List DetectionRecord) (s : SpeciesStat) :
    (foldSpecies l s).max_confidence
      = (l.map (·.confidence)).foldl max s.max_confidence := by
  induction l generalizing s with
  | nil => rfl
  | cons d l ih =>
    show (foldSpecies l (updateStat d s)).max_confidence = _
    rw [ih, updateStat_max_confidence]
    rfl

/-- The species' running maximum confidence after the first `k` records of
the stream have been folded, `0` while the species is still unseen (the
accumulator's initial value). -/
def maxConfSoFar (recs : List DetectionRecord) (name : String) (k : Nat) : Rat :=
  ((lookupStat (aggregate (recs.take k)) name).map (·.max_confidence)).getD 0

lemma maxConfSoFar_eq (recs : List DetectionRecord) (name : String) (k : Nat) :
    maxConfSoFar recs name k
      = (((recs.take k).filter fun r => decide (r.commonName = name)).map
          (·.confidence)).foldl max 0 := by
  unfold maxConfSoFar
  rw [lookupStat_aggregate]
  cases hfil : (recs.take k).filter fun r => decide (r.commonName = name) with
  | nil => simp
  | cons d l =>
    simp only [Option.map_some', Option.getD_some]
    rw [foldSpecies_max, updateStat_max_confidence]
    rfl

lemma maxConfSoFar_mono (recs : List DetectionRecord) (name : String)
    {n m : Nat} (hnm : n ≤ m) :
    maxConfSoFar recs name n ≤ maxConfSoFar recs name m := by
  rw [maxConfSoFar_eq, maxConfSoFar_eq]
  obtain ⟨k, rfl⟩ := Nat.exists_eq_add_of_le hnm
  rw [List.take_add, List.filter_append, List.map_append, List.foldl_append]
  exact le_foldl_max _ _

lemma lookupStat_aggregate_max {recs : List DetectionRecord} {name : String}
    {s : SpeciesStat} (hs : lookupStat (aggregate recs) name = some s) :
    s.max_confidence
      = ((recs.filter fun r => decide (r.commonName = name)).map
          (·.confidence)).foldl max 0 := by
  have h := maxConfSoFar_eq recs name recs.length
  rw [List.take_length] at h
  unfold maxConfSoFar at h
  rw [List.take_length, hs] at h
  simpa using h

lemma foldl_max_zero_mem {l : List Rat} (hne : l ≠ [])
    (hnn : ∀ c ∈ l, 0 ≤ c) : l.foldl max 0 ∈ l := by
  rcases foldl_max_choice l 0 with h0 | hmem
  · cases l with
    | nil => exact absurd rfl hne
    | cons c rest =>
      have hc0 : c ≤ 0 := by
        have h := mem_le_foldl_max (List.mem_cons_self c rest) (0 : Rat)
        rwa [h0] at h
      have hc0' : c = 0 := le_antisymm hc0 (hnn c (List.mem_cons_self c rest))
      rw [h0, ← hc0']
      exact List.mem_cons_self c rest
  · exact hmem

/-- C2: when every record's confidence lies in `[0, 1]`, each aggregated
species' `max_confidence` is the exact maximum of the confidences folded
for that species (it is one of them and bounds them all), is never
negative, never exceeds `1`, and grows monotonically as successive records
are folded in. -/
theorem aggregate_maxConfidence_exact
    (recs : List DetectionRecord)
    (hconf : ∀ r ∈ recs, 0 ≤ r.confidence ∧ r.confidence ≤ 1)
    (name : String) (s : SpeciesStat)
    (hs : lookupStat (aggregate recs) name = some s)
    (n m : Nat) (hnm : n ≤ m) :
    s.max_confidence
        ∈ (recs.filter fun r => decide (r.commonName = name)).map (·.confidence)
    ∧ (∀ c ∈ (recs.filter fun r => decide (r.commonName = name)).map (·.confidence),
        c ≤ s.max_confidence)
    ∧ 0 ≤ s.max_confidence
    ∧ s.max_confidence ≤ 1
    ∧ maxConfSoFar recs name n ≤ maxConfSoFar recs name m := by
  have hmemrec : ∀ c ∈ (recs.filter fun r => decide (r.commonName = name)).map
      (·.confidence), 0 ≤ c ∧ c ≤ 1 := by
    intro c hc
    obtain ⟨r, hr, rfl⟩ := List.mem_map.mp hc
    exact hconf r (List.mem_filter.mp hr).1
  have hmax := lookupStat_aggregate_max hs
  have hne : (recs.filter fun r => decide (r.commonName = name)).map
      (·.confidence) ≠ [] := by
    intro hnil
    rw [List.map_eq_nil_iff] at hnil
    rw [lookupStat_aggregate, hnil] at hs
    exact Option.noConfusion hs
  refine ⟨?_, ?_, ?_, ?_, maxConfSoFar_mono recs name hnm⟩
  · rw [hmax]
    exact foldl_max_zero_mem hne fun c hc => (hmemrec c hc).1
  · intro c hc
    rw [hmax]
    exact mem_le_foldl_max hc 0
  · rw [hmax]
    exact le_foldl_max _ _
  · rw [hmax]
    exact foldl_max_le (by norm_num) fun c hc => (hmemrec c hc).2

theorem aggregate_maxConfidence_exact_witness :
    (updateStat ⟨1, 0, "A", "Aa", 1/2, none, none⟩ initStat).max_confidence
        ∈ ([(⟨1, 0, "A", "Aa", 1/2, none, none⟩ : DetectionRecord)].filter
            fun r => decide (r.commonName = "A")).map (·.confidence)
    ∧ (∀ c ∈ ([(⟨1, 0, "A", "Aa", 1/2, none, none⟩ : DetectionRecord)].filter
            fun r => decide (r.commonName = "A")).map (·.confidence),
        c ≤ (updateStat ⟨1, 0, "A", "Aa", 1/2, none, none⟩ initStat).max_confidence)
    ∧ 0 ≤ (updateStat ⟨1, 0, "A", "Aa", 1/2, none, none⟩ initStat).max_confidence
    ∧ (updateStat ⟨1, 0, "A", "Aa", 1/2, none, none⟩ initStat).max_confidence ≤ 1
    ∧ maxConfSoFar [⟨1, 0, "A", "Aa", 1/2, none, none⟩] "A" 0
        ≤ maxConfSoFar [⟨1, 0, "A", "Aa", 1/2, none, none⟩] "A" 1 :=
  aggregate_maxConfidence_exact [⟨1, 0, "A", "Aa", 1/2, none, none⟩]
    (by
      intro r hr
      rw [List.mem_singleton] at hr
      subst hr
      constructor <;> norm_num)
    "A" (updateStat ⟨1, 0, "A", "Aa", 1/2, none, none⟩ initStat)
    rfl 0 1 (by norm_num)

/-! ### Key order of the aggregate -/

lemma insertStat_keys (st : AggState) (k : String) (s : SpeciesStat) :
    (insertStat st k s).map Prod.fst = insertNew (st.map Prod.fst) k := by
  induction st with
  | nil => simp [insertStat, insertNew]
  | cons kv rest ih =>
    obtain ⟨k', v⟩ := kv
    by_cases hk : k' = k
    · subst hk
      simp [insertStat, insertNew]
    · have hk' : ¬ k = k' := fun h => hk h.symm
      simp only [insertStat, if_neg hk, List.map_cons, ih, insertNew, List.mem_cons]
      by_cases hmem : k ∈ rest.map Prod.fst
      · simp [hmem, hk']
      · simp [hmem, hk']

lemma foldl_foldDetection_keys (recs : List DetectionRecord) (st : AggState) :
    (List.foldl foldDetection st recs).map Prod.fst
      = (recs.map (·.commonName)).foldl insertNew (st.map Prod.fst) := by
  induction recs generalizing st with
  | nil => rfl
  | cons d recs ih =>
    rw [List.foldl_cons, ih, List.map_cons, List.foldl_cons]
    congr 1
    rw [foldDetection, insertStat_keys]

/-- The aggregate's key sequence is the record stream's species names in
first-occurrence order. -/
lemma aggregate_keys (recs : List DetectionRecord) :
    (aggregate recs).map Prod.fst = firstOccurrences (recs.map (·.commonName)) := by
  unfold aggregate firstOccurrences
  rw [foldl_foldDetection_keys]
  rfl

/-- C3: the ranked list is sorted by `count` descending; any two aggregate
entries with equal counts keep their aggregate order in the ranked output
(stability), and the aggregate order is exactly first-occurrence order of
the species in the fetched stream. -/
theorem sorted_species_ranking
    (recs : List DetectionRecord) (ea eb : String × SpeciesStat)
    (hsub : [ea, eb].Sublist (aggregate recs))
    (hcount : ea.2.count = eb.2.count) :
    (sorted_species (aggregate recs)).Pairwise (fun x y => y.count ≤ x.count)
    ∧ [toNamed ea, toNamed eb].Sublist (sorted_species (aggregate recs))
    ∧ (aggregate recs).map Prod.fst = firstOccurrences (recs.map (·.commonName)) := by
  have htrans : ∀ a b c : NamedStat, Nat.ble b.count a.count = true →
      Nat.ble c.count b.count = true → Nat.ble c.count a.count = true := by
    intro a b c hab hbc
    rw [Nat.ble_eq] at *
    exact le_trans hbc hab
  have htotal : ∀ a b : NamedStat,
      (Nat.ble b.count a.count || Nat.ble a.count b.count) = true := by
    intro a b
    rcases le_total b.count a.count with h | h <;> simp [Nat.ble_eq, h]
  refine ⟨?_, ?_, aggregate_keys recs⟩
  · exact (List.sorted_mergeSort htrans htotal
      ((aggregate recs).map toNamed)).imp fun hab => Nat.le_of_ble_eq_true hab
  · have hpair : List.Pairwise
        (fun x y : NamedStat => Nat.ble y.count x.count = true)
        [toNamed ea, toNamed eb] := by
      rw [List.pairwise_cons]
      refine ⟨?_, List.pairwise_singleton _ _⟩
      intro b hb
      rw [List.mem_singleton] at hb
      subst hb
      show Nat.ble eb.2.count ea.2.count = true
      rw [Nat.ble_eq]
      exact le_of_eq hcount.symm
    exact List.sublist_mergeSort htrans htotal hpair (hsub.map toNamed)

theorem sorted_species_ranking_witness :
    (sorted_species (aggregate [⟨1, 0, "A", "Aa", 0, none, none⟩,
        ⟨2, 0, "B", "Bb", 0, none, none⟩])).Pairwise (fun x y => y.count ≤ x.count)
    ∧ [toNamed ("A", updateStat ⟨1, 0, "A", "Aa", 0, none, none⟩ initStat),
        toNamed ("B", updateStat ⟨2, 0, "B", "Bb", 0, none, none⟩ initStat)].Sublist
        (sorted_species (aggregate [⟨1, 0, "A", "Aa", 0, none, none⟩,
          ⟨2, 0, "B", "Bb", 0, none, none⟩]))
    ∧ (aggregate [⟨1, 0, "A", "Aa", 0, none, none⟩,
          ⟨2, 0, "B", "Bb", 0, none, none⟩]).map Prod.fst
        = firstOccurrences ([(⟨1, 0, "A", "Aa", 0, none, none⟩ : DetectionRecord),
            ⟨2, 0, "B", "Bb", 0, none, none⟩].map (·.commonName)) :=
  sorted_species_ranking
    [⟨1, 0, "A", "Aa", 0, none, none⟩, ⟨2, 0, "B", "Bb", 0, none, none⟩]
    ("A", updateStat ⟨1, 0, "A", "Aa", 0, none, none⟩ initStat)
    ("B", updateStat ⟨2, 0, "B", "Bb", 0, none, none⟩ initStat)
    (List.Sublist.refl _)
    (by rw [updateStat_count, updateStat_count])

/-! ### Steps of the pagination loop -/

lemma fetchGo_cons_fail (limit : Nat) (page : PageResponse)
    (rest : List PageResponse) (cursor : Option Nat)
    (hs : page.success = false) :
    fetchGo limit (page :: rest) cursor = ([cursor], []) := by
  rw [fetchGo, hs]
  rfl

lemma fetchGo_cons_break (limit : Nat) (page : PageResponse)
    (rest : List PageResponse) (cursor : Option Nat)
    (hs : page.success = true) (hne : page.detections ≠ [])
    (hlt : page.detections.length < limit) :
    fetchGo limit (page :: rest) cursor = ([cursor], page.detections) := by
  rw [fetchGo, hs, List.isEmpty_eq_false.mpr hne]
  simp [hlt]

lemma fetchGo_cons_full (limit : Nat) (page : PageResponse)
    (rest : List PageResponse) (cursor : Option Nat)
    (hs : page.success = true) (hpos : 0 < limit)
    (hlen : page.detections.length = limit) :
    fetchGo limit (page :: rest) cursor
      = (cursor ::
          (fetchGo limit rest
            (some (((page.detections.getLast?).map (·.id)).getD 0))).1,
         page.detections ++
          (fetchGo limit rest
            (some (((page.detections.getLast?).map (·.id)).getD 0))).2) := by
  have hne : page.detections ≠ [] := by
    intro h
    rw [h] at hlen
    simp at hlen
    omega
  rw [fetchGo, hs, List.isEmpty_eq_false.mpr hne]
  simp [hlen]

/-- C4: for an upstream serving successful pages of sizes 100, 100, 47 at
page size 100, the fetcher issues exactly 3 requests, the first with no
cursor and each later one carrying the id of the last record of the
immediately preceding page, and returns the 247 records concatenated in
order. -/
theorem fetch_three_pages
    (p1 p2 p3 : PageResponse)
    (h1s : p1.success = true) (h2s : p2.success = true) (h3s : p3.success = true)
    (h1l : p1.detections.length = 100) (h2l : p2.detections.length = 100)
    (h3l : p3.detections.length = 47) :
    ∃ l1 l2 : DetectionRecord,
      p1.detections.getLast? = some l1
      ∧ p2.detections.getLast? = some l2
      ∧ (fetch_bird_detections [p1, p2, p3]).1 = [none, some l1.id, some l2.id]
      ∧ (fetch_bird_detections [p1, p2, p3]).2
          = p1.detections ++ (p2.detections ++ p3.detections)
      ∧ (fetch_bird_detections [p1, p2, p3]).2.length = 247 := by
  have hne1 : p1.detections ≠ [] := by
    intro h; rw [h] at h1l; simp at h1l
  have hne2 : p2.detections ≠ [] := by
    intro h; rw [h] at h2l; simp at h2l
  have hne3 : p3.detections ≠ [] := by
    intro h; rw [h] at h3l; simp at h3l
  obtain ⟨l1, hl1⟩ := Option.isSome_iff_exists.mp (List.getLast?_isSome.mpr hne1)
  obtain ⟨l2, hl2⟩ := Option.isSome_iff_exists.mp (List.getLast?_isSome.mpr hne2)
  refine ⟨l1, l2, hl1, hl2, ?_⟩
  have hstep1 := fetchGo_cons_full 100 p1 [p2, p3] none h1s (by norm_num) h1l
  rw [hl1] at hstep1
  simp only [Option.map_some', Option.getD_some] at hstep1
  have hstep2 := fetchGo_cons_full 100 p2 [p3] (some l1.id) h2s (by norm_num) h2l
  rw [hl2] at hstep2
  simp only [Option.map_some', Option.getD_some] at hstep2
  have hstep3 := fetchGo_cons_break 100 p3 [] (some l2.id) h3s hne3 (by rw [h3l]; norm_num)
  rw [hstep3] at hstep2
  rw [hstep2] at hstep1
  unfold fetch_bird_detections
  rw [hstep1]
  refine ⟨rfl, rfl, ?_⟩
  simp [List.length_append, h1l, h2l, h3l]

theorem fetch_three_pages_witness :
    ∃ l1 l2 : DetectionRecord,
      (PageResponse.mk true ((List.range 100).map
          fun n => ⟨n, 0, "A", "Aa", 0, none, none⟩)).detections.getLast? = some l1
      ∧ (PageResponse.mk true ((List.range 100).map
          fun n => ⟨n + 100, 0, "A", "Aa", 0, none, none⟩)).detections.getLast? = some l2
      ∧ (fetch_bird_detections
          [PageResponse.mk true ((List.range 100).map
              fun n => ⟨n, 0, "A", "Aa", 0, none, none⟩),
            PageResponse.mk true ((List.range 100).map
              fun n => ⟨n + 100, 0, "A", "Aa", 0, none, none⟩),
            PageResponse.mk true ((List.range 47).map
              fun n => ⟨n + 200, 0, "A", "Aa", 0, none, none⟩)]).1
          = [none, some l1.id, some l2.id]
      ∧ (fetch_bird_detections
          [PageResponse.mk true ((List.range 100).map
              fun n => ⟨n, 0, "A", "Aa", 0, none, none⟩),
            PageResponse.mk true ((List.range 100).map
              fun n => ⟨n + 100, 0, "A", "Aa", 0, none, none⟩),
            PageResponse.mk true ((List.range 47).map
              fun n => ⟨n + 200, 0, "A", "Aa", 0, none, none⟩)]).2
          = ((List.range 100).map fun n => ⟨n, 0, "A", "Aa", 0, none, none⟩)
            ++ (((List.range 100).map fun n => ⟨n + 100, 0, "A", "Aa", 0, none, none⟩)
              ++ ((List.range 47).map fun n => ⟨n + 200, 0, "A", "Aa", 0, none, none⟩))
      ∧ (fetch_bird_detections
          [PageResponse.mk true ((List.range 100).map
              fun n => ⟨n, 0, "A", "Aa", 0, none, none⟩),
            PageResponse.mk true ((List.range 100).map
              fun n => ⟨n + 100, 0, "A", "Aa", 0, none, none⟩),
            PageResponse.mk true ((List.range 47).map
              fun n => ⟨n + 200, 0, "A", "Aa", 0, none, none⟩)]).2.length = 247 :=
  fetch_three_pages
    (PageResponse.mk true ((List.range 100).map
      fun n => ⟨n, 0, "A", "Aa", 0, none, none⟩))
    (PageResponse.mk true ((List.range 100).map
      fun n => ⟨n + 100, 0, "A", "Aa", 0, none, none⟩))
    (PageResponse.mk true ((List.range 47).map
      fun n => ⟨n + 200, 0, "A", "Aa", 0, none, none⟩))
    rfl rfl rfl (by simp) (by simp) (by simp)

/-- C6: a first page answering `success=false` makes the pipeline issue
exactly one request (carrying no cursor) and produce an aggregate with zero
species; the failure is treated like end-of-data and pagination stops
without an error. -/
theorem fetch_first_page_failure
    (p : PageResponse) (rest : List PageResponse) (hs : p.success = false) :
    fetch_bird_detections (p :: rest) = ([none], [])
    ∧ (aggregate (fetch_bird_detections (p :: rest)).2).length = 0 := by
  have h := fetchGo_cons_fail 100 p rest none hs
  exact ⟨h, by rw [fetch_bird_detections, h]; rfl⟩

theorem fetch_first_page_failure_witness :
    fetch_bird_detections [PageResponse.mk false []] = ([none], [])
    ∧ (aggregate (fetch_bird_detections [PageResponse.mk false []]).2).length = 0 :=
  fetch_first_page_failure (PageResponse.mk false []) [] rfl

/-- C8: each species' display row has exactly 24 cells, one per hour
`0..23`; the cell for hour `h` carries `h`, the raw hourly count, and the
clamped intensity `min(rawCount * 25, 255)`; in particular a raw count of
10 yields intensity 250 and a raw count of 20 yields 255. -/
theorem hoursRow_cells (s : NamedStat) (h : Nat) (hh : h < 24) :
    (hoursRow s).length = 24
    ∧ (hoursRow s)[h]? = some
        { hour := h, count := s.hour_counts h,
          intensity := min (s.hour_counts h * 25) 255 }
    ∧ (s.hour_counts h = 10 → ((hoursRow s)[h]?).map (·.intensity) = some 250)
    ∧ (s.hour_counts h = 20 → ((hoursRow s)[h]?).map (·.intensity) = some 255) := by
  have hcell : (hoursRow s)[h]? = some
      { hour := h, count := s.hour_counts h,
        intensity := min (s.hour_counts h * 25) 255 } := by
    unfold hoursRow
    rw [List.getElem?_map, List.getElem?_range hh]
    rfl
  refine ⟨by simp [hoursRow], hcell, ?_, ?_⟩
  · intro h10
    rw [hcell, h10]
    rfl
  · intro h20
    rw [hcell, h20]
    rfl

theorem hoursRow_cells_witness :
    (hoursRow ⟨"A", 0, 0, fun _ => 10, none, none, none⟩).length = 24
    ∧ (hoursRow ⟨"A", 0, 0, fun _ => 10, none, none, none⟩)[0]?
        = some { hour := 0, count := 10, intensity := min (10 * 25) 255 }
    ∧ ((10 : Nat) = 10 →
        ((hoursRow ⟨"A", 0, 0, fun _ => 10, none, none, none⟩)[0]?).map (·.intensity)
          = some 250)
    ∧ ((10 : Nat) = 20 →
        ((hoursRow ⟨"A", 0, 0, fun _ => 10, none, none, none⟩)[0]?).map (·.intensity)
          = some 255) :=
  hoursRow_cells ⟨"A", 0, 0, fun _ => 10, none, none, none⟩ 0 (by norm_num)

/-! ### Per-species corollaries of the aggregate decomposition -/

lemma lookupStat_aggregate_ne_nil {recs : List DetectionRecord} {name : String}
    {s : SpeciesStat} (hs : lookupStat (aggregate recs) name = some s) :
    recs.filter (fun r => decide (r.commonName = name)) ≠ [] := by
  intro hnil
  rw [lookupStat_aggregate, hnil] at hs
  exact Option.noConfusion hs

lemma lookupStat_aggregate_foldSpecies {recs : List DetectionRecord}
    {name : String} {s : SpeciesStat}
    (hs : lookupStat (aggregate recs) name = some s) :
    s = foldSpecies (recs.filter fun r => decide (r.commonName = name)) initStat := by
  rw [lookupStat_aggregate] at hs
  cases hfil : recs.filter fun r => decide (r.commonName = name) with
  | nil => rw [hfil] at hs; exact Option.noConfusion hs
  | cons d l =>
    rw [hfil] at hs
    exact (Option.some.inj hs).symm

lemma mem_of_getLast_eq {α : Type} {l : List α} {r : α}
    (h : l.getLast? = some r) : r ∈ l := by
  induction l with
  | nil => simp at h
  | cons a l ih =>
    cases l with
    | nil =>
      rw [List.getLast?_singleton] at h
      obtain rfl := Option.some.inj h
      exact List.mem_singleton_self _
    | cons b l' =>
      rw [List.getLast?_cons_cons] at h
      exact List.mem_cons_of_mem _ (ih h)

lemma foldSpecies_scientific_image (l : List DetectionRecord) (s : SpeciesStat)
    {r : DetectionRecord} (hr : l.getLast? = some r) :
    (foldSpecies l s).scientific_name = some r.scientificName
    ∧ (foldSpecies l s).image_url = r.imageUrl := by
  induction l generalizing s with
  | nil => simp at hr
  | cons d l ih =>
    cases l with
    | nil =>
      rw [List.getLast?_singleton] at hr
      obtain rfl := Option.some.inj hr
      exact ⟨updateStat_scientific_name d s, updateStat_image_url d s⟩
    | cons d' l' =>
      rw [List.getLast?_cons_cons] at hr
      exact ih (updateStat d s) hr

lemma getLast_pairwise_le {l : List DetectionRecord} {r : DetectionRecord}
    (hp : l.Pairwise fun x y => y.timestamp ≤ x.timestamp)
    (hr : l.getLast? = some r) :
    ∀ x ∈ l, r.timestamp ≤ x.timestamp := by
  induction l with
  | nil => simp at hr
  | cons d l ih =>
    rw [List.pairwise_cons] at hp
    intro x hx
    cases l with
    | nil =>
      rw [List.getLast?_singleton] at hr
      obtain rfl := Option.some.inj hr
      rw [List.mem_singleton] at hx
      subst hx
      exact le_refl _
    | cons d' l' =>
      rw [List.getLast?_cons_cons] at hr
      rcases List.mem_cons.mp hx with rfl | hx'
      · exact hp.1 r (mem_of_getLast_eq hr)
      · exact ih hp.2 hr x hx'

/-- C9: each species' stored `scientific_name` and `image_url` come from
the last record folded for it (unconditional overwrite on every record);
when the stream is ordered by descending timestamp, that record is the
oldest one for the species in the window. -/
theorem aggregate_metadata_last_record
    (recs : List DetectionRecord) (name : String) (s : SpeciesStat)
    (hs : lookupStat (aggregate recs) name = some s) :
    ∃ r : DetectionRecord,
      (recs.filter fun x => decide (x.commonName = name)).getLast? = some r
      ∧ s.scientific_name = some r.scientificName
      ∧ s.image_url = r.imageUrl
      ∧ (recs.Pairwise (fun x y => y.timestamp ≤ x.timestamp) →
          ∀ x ∈ recs.filter fun x => decide (x.commonName = name),
            r.timestamp ≤ x.timestamp) := by
  obtain rfl := lookupStat_aggregate_foldSpecies hs
  have hne := lookupStat_aggregate_ne_nil hs
  obtain ⟨r, hr⟩ := Option.isSome_iff_exists.mp (List.getLast?_isSome.mpr hne)
  obtain ⟨hsci, himg⟩ := foldSpecies_scientific_image _ initStat hr
  refine ⟨r, hr, hsci, himg, fun hpair => ?_⟩
  exact getLast_pairwise_le (hpair.filter _) hr

theorem aggregate_metadata_last_record_witness :
    ∃ r : DetectionRecord,
      ([(⟨1, 7200, "A", "Aa", 0, some "img", none⟩ : DetectionRecord)].filter
          fun x => decide (x.commonName = "A")).getLast? = some r
      ∧ (updateStat ⟨1, 7200, "A", "Aa", 0, some "img", none⟩ initStat).scientific_name
          = some r.scientificName
      ∧ (updateStat ⟨1, 7200, "A", "Aa", 0, some "img", none⟩ initStat).image_url
          = r.imageUrl
      ∧ ([(⟨1, 7200, "A", "Aa", 0, some "img", none⟩ : DetectionRecord)].Pairwise
            (fun x y => y.timestamp ≤ x.timestamp) →
          ∀ x ∈ [(⟨1, 7200, "A", "Aa", 0, some "img", none⟩ : DetectionRecord)].filter
              fun x => decide (x.commonName = "A"),
            r.timestamp ≤ x.timestamp) :=
  aggregate_metadata_last_record [⟨1, 7200, "A", "Aa", 0, some "img", none⟩] "A"
    (updateStat ⟨1, 7200, "A", "Aa", 0, some "img", none⟩ initStat) rfl

lemma foldSpecies_zero {l : List DetectionRecord}
    (hz : ∀ r ∈ l, r.confidence = 0) {s : SpeciesStat}
    (h0 : s.max_confidence = 0) (hb : s.best_soundscape = none) :
    (foldSpecies l s).max_confidence = 0
    ∧ (foldSpecies l s).best_soundscape = none := by
  induction l generalizing s with
  | nil => exact ⟨h0, hb⟩
  | cons d l ih =>
    have hd : d.confidence = 0 := hz d (List.mem_cons_self _ _)
    have hle : d.confidence ≤ s.max_confidence := by rw [hd, h0]
    refine ih (fun r hr => hz r (List.mem_cons_of_mem _ hr)) ?_ ?_
    · rw [updateStat_max_confidence, h0, hd]
      simp
    · rw [updateStat_best_of_le hle, hb]

/-- C10: when every record folded for a given species has confidence
exactly 0 (other species in the stream may have any confidences), that
species ends with `best_soundscape = None`, even though its
`max_confidence` (0) equals the true maximum of its folded confidences:
the accumulator starts at 0 and only strict excess attaches a
soundscape. -/
theorem aggregate_zero_confidence_no_soundscape
    (recs : List DetectionRecord) (name : String)
    (hzero : ∀ r ∈ recs.filter fun r => decide (r.commonName = name),
      r.confidence = 0)
    (s : SpeciesStat)
    (hs : lookupStat (aggregate recs) name = some s) :
    s.best_soundscape = none
    ∧ s.max_confidence = 0
    ∧ ∀ c ∈ (recs.filter fun r => decide (r.commonName = name)).map (·.confidence),
        c ≤ s.max_confidence := by
  obtain rfl := lookupStat_aggregate_foldSpecies hs
  obtain ⟨hmax, hbest⟩ := foldSpecies_zero (s := initStat) hzero rfl rfl
  refine ⟨hbest, hmax, ?_⟩
  intro c hc
  obtain ⟨r, hr, rfl⟩ := List.mem_map.mp hc
  rw [hzero r hr, hmax]

theorem aggregate_zero_confidence_no_soundscape_witness :
    (updateStat ⟨3, 0, "A", "Aa", 0, none, none⟩
        (updateStat ⟨1, 0, "A", "Aa", 0, none, some ⟨"u", 2, 5⟩⟩
          initStat)).best_soundscape = none
    ∧ (updateStat ⟨3, 0, "A", "Aa", 0, none, none⟩
        (updateStat ⟨1, 0, "A", "Aa", 0, none, some ⟨"u", 2, 5⟩⟩
          initStat)).max_confidence = 0
    ∧ ∀ c ∈ ([(⟨1, 0, "A", "Aa", 0, none, some ⟨"u", 2, 5⟩⟩ : DetectionRecord),
          ⟨2, 0, "B", "Bb", 1, none, some ⟨"v", 3, 7⟩⟩,
          ⟨3, 0, "A", "Aa", 0, none, none⟩].filter
          fun r => decide (r.commonName = "A")).map (·.confidence),
        c ≤ (updateStat ⟨3, 0, "A", "Aa", 0, none, none⟩
          (updateStat ⟨1, 0, "A", "Aa", 0, none, some ⟨"u", 2, 5⟩⟩
            initStat)).max_confidence :=
  aggregate_zero_confidence_no_soundscape
    [⟨1, 0, "A", "Aa", 0, none, some ⟨"u", 2, 5⟩⟩,
      ⟨2, 0, "B", "Bb", 1, none, some ⟨"v", 3, 7⟩⟩,
      ⟨3, 0, "A", "Aa", 0, none, none⟩]
    "A" (by decide)
    (updateStat ⟨3, 0, "A", "Aa", 0, none, none⟩
      (updateStat ⟨1, 0, "A", "Aa", 0, none, some ⟨"u", 2, 5⟩⟩ initStat))
    rfl

/-! ### Which record's soundscape ends up stored -/

lemma foldSpecies_append_singleton (l : List DetectionRecord)
    (d : DetectionRecord) (s : SpeciesStat) :
    foldSpecies (l ++ [d]) s = updateStat d (foldSpecies l s) := by
  unfold foldSpecies
  rw [List.foldl_append]
  rfl

lemma foldSpecies_best_find (l : List DetectionRecord)
    (hpos : 0 < (foldSpecies l initStat).max_confidence) :
    ∃ r, l.find? (fun x => decide (x.confidence
          = (foldSpecies l initStat).max_confidence)) = some r
      ∧ (foldSpecies l initStat).best_soundscape = r.soundscape := by
  induction l using List.reverseRecOn with
  | nil => exact absurd hpos (by simp [foldSpecies, initStat])
  | append_singleton l d ih =>
    by_cases hgt : (foldSpecies l initStat).max_confidence < d.confidence
    · have hmax : (foldSpecies (l ++ [d]) initStat).max_confidence = d.confidence := by
        rw [foldSpecies_append_singleton, updateStat_max_confidence,
          max_eq_right hgt.le]
      have hnone : l.find? (fun x => decide (x.confidence = d.confidence)) = none := by
        rw [List.find?_eq_none]
        intro x hx
        simp only [decide_eq_true_eq]
        intro hxc
        have hub : x.confidence ≤ (foldSpecies l initStat).max_confidence := by
          rw [foldSpecies_max]
          exact mem_le_foldl_max (List.mem_map_of_mem _ hx) _
        rw [hxc] at hub
        exact absurd hgt (not_lt.mpr hub)
      refine ⟨d, ?_, ?_⟩
      · rw [hmax, List.find?_append, hnone, Option.none_or]
        simp [List.find?_cons]
      · rw [foldSpecies_append_singleton, updateStat_best_of_lt hgt]
    · have hle : d.confidence ≤ (foldSpecies l initStat).max_confidence :=
        not_lt.mp hgt
      have hmax : (foldSpecies (l ++ [d]) initStat).max_confidence
          = (foldSpecies l initStat).max_confidence := by
        rw [foldSpecies_append_singleton, updateStat_max_confidence,
          max_eq_left hle]
      rw [hmax] at hpos
      obtain ⟨r, hr1, hr2⟩ := ih hpos
      refine ⟨r, ?_, ?_⟩
      · rw [hmax, List.find?_append, hr1]
        rfl
      · rw [foldSpecies_append_singleton, updateStat_best_of_le hle, hr2]

/-- C5 counterexample: a single record with confidence 0 and a non-null
soundscape.  Its confidence equals the species' final `max_confidence` (0),
so it is the first record in fold order whose confidence reached the final
maximum, yet `best_soundscape` stays `None` and differs from that record's
soundscape — the claim as stated fails at this input. -/
theorem aggregate_bestSoundscape_counterexample :
    lookupStat (aggregate [⟨1, 0, "A", "Aa", 0, none, some ⟨"u", 2, 5⟩⟩]) "A"
      = some (updateStat ⟨1, 0, "A", "Aa", 0, none, some ⟨"u", 2, 5⟩⟩ initStat)
    ∧ ([(⟨1, 0, "A", "Aa", 0, none, some ⟨"u", 2, 5⟩⟩ : DetectionRecord)].filter
          fun x => decide (x.commonName = "A")).find?
        (fun x => decide (x.confidence
          = (updateStat ⟨1, 0, "A", "Aa", 0, none, some ⟨"u", 2, 5⟩⟩
              initStat).max_confidence))
      = some ⟨1, 0, "A", "Aa", 0, none, some ⟨"u", 2, 5⟩⟩
    ∧ (updateStat ⟨1, 0, "A", "Aa", 0, none, some ⟨"u", 2, 5⟩⟩
        initStat).best_soundscape = none
    ∧ (updateStat ⟨1, 0, "A", "Aa", 0, none, some ⟨"u", 2, 5⟩⟩
        initStat).best_soundscape
      ≠ (⟨1, 0, "A", "Aa", 0, none, some ⟨"u", 2, 5⟩⟩ : DetectionRecord).soundscape :=
  ⟨rfl, rfl, rfl, by
    show (none : Option Soundscape) ≠ some { url := "u", startTime := 2, endTime := 5 }
    simp⟩

/-- C5 (amended): provided the species' final `max_confidence` is strictly
positive, `best_soundscape` is the soundscape of the first record in fold
order whose confidence equals that final maximum; and stepwise, a record
whose confidence strictly exceeds the current maximum updates both
`max_confidence` and `best_soundscape`, while a record whose confidence
merely equals the current maximum updates neither. -/
theorem aggregate_bestSoundscape_first_reach
    (recs : List DetectionRecord) (name : String) (s : SpeciesStat)
    (hs : lookupStat (aggregate recs) name = some s)
    (hpos : 0 < s.max_confidence)
    (d : DetectionRecord) (t : SpeciesStat) :
    (∃ r, (recs.filter fun x => decide (x.commonName = name)).find?
          (fun x => decide (x.confidence = s.max_confidence)) = some r
        ∧ s.best_soundscape = r.soundscape)
    ∧ (t.max_confidence < d.confidence →
        (updateStat d t).best_soundscape = d.soundscape
        ∧ (updateStat d t).max_confidence = d.confidence)
    ∧ (d.confidence = t.max_confidence →
        (updateStat d t).best_soundscape = t.best_soundscape
        ∧ (updateStat d t).max_confidence = t.max_confidence) := by
  refine ⟨?_, ?_, ?_⟩
  · obtain rfl := lookupStat_aggregate_foldSpecies hs
    exact foldSpecies_best_find _ hpos
  · intro hlt
    exact ⟨updateStat_best_of_lt hlt,
      by rw [updateStat_max_confidence, max_eq_right hlt.le]⟩
  · intro heq
    exact ⟨updateStat_best_of_le (le_of_eq heq),
      by rw [updateStat_max_confidence, max_eq_left (le_of_eq heq)]⟩

theorem aggregate_bestSoundscape_first_reach_witness :
    (∃ r, ([(⟨1, 0, "A", "Aa", 1, none, some ⟨"u", 2, 5⟩⟩ : DetectionRecord)].filter
          fun x => decide (x.commonName = "A")).find?
        (fun x => decide (x.confidence
          = (updateStat ⟨1, 0, "A", "Aa", 1, none, some ⟨"u", 2, 5⟩⟩
              initStat).max_confidence)) = some r
      ∧ (updateStat ⟨1, 0, "A", "Aa", 1, none, some ⟨"u", 2, 5⟩⟩
          initStat).best_soundscape = r.soundscape)
    ∧ (initStat.max_confidence
          < (⟨1, 0, "A", "Aa", 1, none, some ⟨"u", 2, 5⟩⟩ : DetectionRecord).confidence →
        (updateStat ⟨1, 0, "A", "Aa", 1, none, some ⟨"u", 2, 5⟩⟩
            initStat).best_soundscape
          = (⟨1, 0, "A", "Aa", 1, none, some ⟨"u", 2, 5⟩⟩ : DetectionRecord).soundscape
        ∧ (updateStat ⟨1, 0, "A", "Aa", 1, none, some ⟨"u", 2, 5⟩⟩
            initStat).max_confidence
          = (⟨1, 0, "A", "Aa", 1, none, some ⟨"u", 2, 5⟩⟩ : DetectionRecord).confidence)
    ∧ ((⟨1, 0, "A", "Aa", 1, none, some ⟨"u", 2, 5⟩⟩ : DetectionRecord).confidence
          = initStat.max_confidence →
        (updateStat ⟨1, 0, "A", "Aa", 1, none, some ⟨"u", 2, 5⟩⟩
            initStat).best_soundscape = initStat.best_soundscape
        ∧ (updateStat ⟨1, 0, "A", "Aa", 1, none, some ⟨"u", 2, 5⟩⟩
            initStat).max_confidence = initStat.max_confidence) :=
  aggregate_bestSoundscape_first_reach
    [⟨1, 0, "A", "Aa", 1, none, some ⟨"u", 2, 5⟩⟩] "A"
    (updateStat ⟨1, 0, "A", "Aa", 1, none, some ⟨"u", 2, 5⟩⟩ initStat) rfl
    (by norm_num [updateStat, initStat])
    ⟨1, 0, "A", "Aa", 1, none, some ⟨"u", 2, 5⟩⟩ initStat

/-! ### Behaviour on malformed records -/

lemma except_ok_bind {α β : Type} (a : α) (f : α → Except PyError β) :
    (Except.ok a >>= f) = f a := rfl

lemma except_pure_eq {α : Type} (a : α) :
    (pure a : Except PyError α) = Except.ok a := rfl

/-- Folding a well-formed record through the explicit-dictionary-access
rendering of the loop body agrees with the pure rendering. -/
lemma foldRaw_toRaw (st : AggState) (d : DetectionRecord) :
    foldRaw st (toRaw d) = .ok (foldDetection st d) := by
  by_cases h : ((lookupStat st d.commonName).getD initStat).max_confidence
      < d.confidence <;>
    simp [foldRaw, toRaw, getKey, foldDetection, updateStat, h,
      except_ok_bind, except_pure_eq]

/-- A raw detection whose required `confidence` key is absent; every other
required key is present and the optional values are null. -/
def rawNoConfidence : RawDetection :=
  { timestamp := some 0
    species := some { commonName := some "A", scientificName := some "Aa", imageUrl := some none }
    confidence := none
    soundscape := some none }

/-- C7 evidence: a record missing the required `confidence` key makes the
aggregation loop fail with a bare `KeyError` (Python's undefined-crash
path), not a defined `MalformedRecord` rejection; a preceding well-formed
record does not make the loop skip the bad one, and a fully well-formed
stream aggregates without error. -/
theorem aggregateRaw_missing_confidence_keyError :
    aggregateRaw [rawNoConfidence] = .error .keyError
    ∧ aggregateRaw [toRaw ⟨1, 0, "A", "Aa", 0, none, none⟩, rawNoConfidence]
        = .error .keyError
    ∧ aggregateRaw [toRaw ⟨1, 0, "A", "Aa", 0, none, none⟩]
        = .ok (aggregate [⟨1, 0, "A", "Aa", 0, none, none⟩]) :=
  ⟨rfl, rfl, rfl⟩
